import Mathlib

/-!
Verification of the nbclassify trainer script (`script/trainer.py`).

The script's codeword machinery is embedded shallowly:

* Python dictionaries keyed by class names become association lists
  (`List (String × α)`) with Python's insert-or-overwrite assignment
  (`dictSet`) and key lookup (`dictGet`).
* Numeric values (codeword entries, network outputs, error bounds) are
  modelled as rationals `ℚ`.
* `sorted(...)` on class names is `List.insertionSort (· ≤ ·)`; since
  `≤` on `String` is a linear order, the sorted list agrees with
  Python's stable sort.
* Raised exceptions are modelled with the `PyResult` type: `PyResult.ok`
  is a normal return, `PyResult.exn msg` an exception carrying its
  message.
-/

attribute [local semireducible] Rat.add Rat.sub Rat.mul Rat.inv Rat.ofScientific

/-- Result of running a piece of Python code: a value or an exception. -/
inductive PyResult (α : Type) where
  | ok : α → PyResult α
  | exn : String → PyResult α
deriving DecidableEq

/-- Python dictionary assignment `d[k] = v`: overwrite the entry in place
if the key is present, otherwise append a new entry. -/
def dictSet {α : Type} (d : List (String × α)) (k : String) (v : α) :
    List (String × α) :=
  match d with
  | [] => [(k, v)]
  | (k', v') :: rest =>
      if k' = k then (k, v) :: rest else (k', v') :: dictSet rest k v

/-- Python dictionary lookup `d[k]`, as an `Option`. -/
def dictGet {α : Type} (d : List (String × α)) (k : String) : Option α :=
  match d with
  | [] => none
  | (k', v) :: rest => if k' = k then some v else dictGet rest k

/-- Python dictionary equality `d1 == d2`: the same keys map to the same
values (entry order is irrelevant). -/
def dictEquiv {α : Type} (d1 d2 : List (String × α)) : Prop :=
  ∀ k, dictGet d1 k = dictGet d2 k

/-- Python `enumerate(l)` starting at index `n`. -/
def pyEnum {α : Type} (l : List α) (n : Nat) : List (Nat × α) :=
  match l with
  | [] => []
  | a :: t => (n, a) :: pyEnum t (n + 1)

/-- Lexicographic order on strings, stated on their character lists so
that it evaluates by kernel reduction; `strLe_iff` proves it agrees with
the library order `≤` on `String` (Python compares strings the same
way, code point by code point). -/
def strLe (a b : String) : Prop := a.data ≤ b.data

instance : DecidableRel strLe := fun a b =>
  inferInstanceAs (Decidable (a.data ≤ b.data))

theorem strLe_iff (a b : String) : strLe a b ↔ a ≤ b :=
  Iff.symm String.le_iff_toList_le

instance : IsTotal String strLe where
  total a b := by
    rcases le_total a b with h | h
    · exact Or.inl ((strLe_iff a b).mpr h)
    · exact Or.inr ((strLe_iff b a).mpr h)

instance : IsTrans String strLe where
  trans a b c hab hbc :=
    (strLe_iff a c).mpr (((strLe_iff a b).mp hab).trans ((strLe_iff b c).mp hbc))

instance : IsAntisymm String strLe where
  antisymm a b hab hba :=
    le_antisymm ((strLe_iff a b).mp hab) ((strLe_iff b a).mp hba)

/-- Python `sorted(classes)` for class-name collections. -/
def sortClasses (l : List String) : List String :=
  List.insertionSort strLe l

/-- Embedding of `Common.get_codewords(classes, neg, pos)`
(trainer.py lines 220-228): `n = len(classes)`; for each `i, class_` in
`enumerate(sorted(classes))` build `cw = [neg]*n; cw[i] = pos` and assign
`codewords[class_] = cw`. -/
def get_codewords (classes : List String) (neg pos : ℚ) :
    List (String × List ℚ) :=
  (pyEnum (sortClasses classes) 0).foldl
    (fun d p => dictSet d p.2 ((List.replicate classes.length neg).set p.1 pos))
    []

/-- Message of the `ValueError` raised by `Common.get_classification`
(the typo "Lenth" is in the source). -/
def lenMismatchMsg : String :=
  "ValueError: Lenth of codewords must be equal to codeword"

/-- Message of the `IndexError` raised by `codeword[i]` out of range. -/
def indexErrMsg : String := "IndexError: list index out of range"

/-- Inner loop of `Common.get_classification` for one class `cls` with
codeword entries `L` (already enumerated): for each `i, code` in
`enumerate(cw)`, if `code == 1.0 and (code - codeword[i])**2 < error`
append `(codeword[i], cls)`.  Short-circuit evaluation means
`codeword[i]` is only read (and can only raise `IndexError`) when
`code == 1.0`. -/
def collectClass (cls : String) (codeword : List ℚ) (error : ℚ) :
    List (Nat × ℚ) → PyResult (List (ℚ × String))
  | [] => PyResult.ok []
  | (i, code) :: t =>
      if code = 1 then
        match codeword[i]? with
        | none => PyResult.exn indexErrMsg
        | some v =>
            match collectClass cls codeword error t with
            | PyResult.exn e => PyResult.exn e
            | PyResult.ok r =>
                if (code - v) ^ 2 < error then PyResult.ok ((v, cls) :: r)
                else PyResult.ok r
      else collectClass cls codeword error t

/-- Outer loop of `Common.get_classification`: iterate over the entries
of the `codewords` dictionary, concatenating the collected
`(value, class)` pairs. -/
def collectAll (codeword : List ℚ) (error : ℚ) :
    List (String × List ℚ) → PyResult (List (ℚ × String))
  | [] => PyResult.ok []
  | (cls, cw) :: rest =>
      match collectClass cls codeword error (pyEnum cw 0) with
      | PyResult.exn e => PyResult.exn e
      | PyResult.ok ps =>
          match collectAll codeword error rest with
          | PyResult.exn e => PyResult.exn e
          | PyResult.ok qs => PyResult.ok (ps ++ qs)

/-- Order used by `sorted(classes, reverse=True)` on `(value, class)`
pairs: descending lexicographic (larger value first; among equal
values, larger class name first). -/
def pairGE (a b : ℚ × String) : Prop :=
  b.1 < a.1 ∨ (a.1 = b.1 ∧ strLe b.2 a.2)

instance : DecidableRel pairGE := fun a b => by
  unfold pairGE
  infer_instance

instance : IsTotal (ℚ × String) pairGE where
  total a b := by
    rcases lt_trichotomy a.1 b.1 with h | h | h
    · exact Or.inr (Or.inl h)
    · rcases total_of strLe a.2 b.2 with h2 | h2
      · exact Or.inr (Or.inr ⟨h.symm, h2⟩)
      · exact Or.inl (Or.inr ⟨h, h2⟩)
    · exact Or.inl (Or.inl h)

instance : IsTrans (ℚ × String) pairGE where
  trans a b c hab hbc := by
    rcases hab with hab | ⟨hab1, hab2⟩
    · rcases hbc with hbc | ⟨hbc1, hbc2⟩
      · exact Or.inl (hbc.trans hab)
      · exact Or.inl (hbc1 ▸ hab)
    · rcases hbc with hbc | ⟨hbc1, hbc2⟩
      · exact Or.inl (hab1 ▸ hbc)
      · exact Or.inr ⟨hab1.trans hbc1, trans_of strLe hbc2 hab2⟩

/-- Python `sorted(pairs, reverse=True)` on `(value, class)` pairs. -/
def sortPairs (l : List (ℚ × String)) : List (ℚ × String) :=
  List.insertionSort pairGE l

/-- Embedding of `Common.get_classification(codewords, codeword, error)`
(trainer.py lines 230-240): raise `ValueError` when the dictionary size
differs from the codeword length; otherwise collect `(codeword[i], cls)`
for every entry `cls` whose codeword has a `1` at a position `i` with
`(1 - codeword[i])**2 < error`, sort the pairs descending, and return
the class names. -/
def get_classification (codewords : List (String × List ℚ))
    (codeword : List ℚ) (error : ℚ) : PyResult (List String) :=
  if codewords.length = codeword.length then
    match collectAll codeword error codewords with
    | PyResult.exn e => PyResult.exn e
    | PyResult.ok pairs => PyResult.ok ((sortPairs pairs).map Prod.snd)
  else PyResult.exn lenMismatchMsg

/-- Specification-side description of the qualifying `(value, class)`
pairs of `get_classification`: for each dictionary entry `(cls, cw)` in
order, the pairs `(codeword[i], cls)` for every position `i` where
`cw[i] = 1` and `(1 - codeword[i])^2 < error`. -/
def qualPairs (codeword : List ℚ) (error : ℚ) :
    List (String × List ℚ) → List (ℚ × String)
  | [] => []
  | (cls, cw) :: rest =>
      ((pyEnum cw 0).filter
          (fun p => decide (p.2 = 1 ∧ (1 - codeword.getD p.1 0) ^ 2 < error))).map
        (fun p => (codeword.getD p.1 0, cls))
      ++ qualPairs codeword error rest

/-- Result list of `get_classification`, with an exception read as the
empty list (used to phrase decidable hypotheses about decoded classes). -/
def decodeList (codewords : List (String × List ℚ)) (codeword : List ℚ)
    (error : ℚ) : List String :=
  match get_classification codewords codeword error with
  | PyResult.ok l => l
  | PyResult.exn _ => []

/-! ### `main` (trainer.py lines 133-169)

The four task branches of `main` handle an exception raised by the task
body differently: `data` wraps the body in `try/except` that logs the
error and re-raises it; `ann` wraps it in `try/except` that logs the
error and falls through (no `raise`); `test-ann` and `classify` have no
handler at all, so the exception propagates without being logged. -/

/-- The four subcommands of the trainer script. -/
inductive TrainerTask where
  | data | ann | testAnn | classify
deriving DecidableEq

/-- Observable outcome of `main` for one subcommand: which error
messages were logged, and which exception (if any) escaped `main`. -/
structure MainOutcome where
  logged : List String
  raised : Option String
deriving DecidableEq

/-- Embedding of `main`'s per-task exception handling: the task body
either returns normally (`PyResult.ok`) or raises (`PyResult.exn e`),
and `main` reacts per the `try/except` structure of its branch. -/
def mainRun (t : TrainerTask) (body : PyResult Unit) : MainOutcome :=
  match t, body with
  | _, PyResult.ok _ => { logged := [], raised := none }
  | TrainerTask.data, PyResult.exn e => { logged := [e], raised := some e }
  | TrainerTask.ann, PyResult.exn e => { logged := [e], raised := none }
  | TrainerTask.testAnn, PyResult.exn e => { logged := [], raised := some e }
  | TrainerTask.classify, PyResult.exn e => { logged := [], raised := some e }

/-! ### `ImageClassifier.classify` (trainer.py lines 678-687)

The phenotyper (`nbc.Phenotyper`, feature extraction) and the trained
network (`libfann.neural_net.run`) are external collaborators and enter
the embedding as abstract functions.  `self.classes` is the class-name
list produced by the taxonomic-class query in `__init__`. -/

/-- Embedding of `ImageClassifier.classify(image_path, error)`: build a
phenotype from the image, run the network on it, build the codewords of
`self.classes` (with the default `neg = -1`, `pos = 1`) and decode. -/
def ImageClassifier.classify (classes : List String)
    (run : List ℚ → List ℚ) (makePhenotype : String → List ℚ)
    (image_path : String) (error : ℚ) : PyResult (List String) :=
  let phenotype := makePhenotype image_path
  let codeword := run phenotype
  let codewords := get_codewords classes (-1) 1
  get_classification codewords codeword error

/-! ### `TestAnn.export_results` (trainer.py lines 589-652)

Test samples are `(label, input, output)` triples from the test data
(loaded by `nbc.TrainData`, abstracted as an input list); the trained
network is the abstract function `run`.  The produced file is modelled
as its list of lines, each line a list of tab-separated fields. -/

/-- A test sample: optional label, input vector, target output vector. -/
abbrev Sample : Type := Option String × List ℚ × List ℚ

/-- Python `row.append(label if label else "")`. -/
def labelField (l : Option String) : String :=
  match l with | some s => s | none => ""

/-- Model of the `"%.3f"` formatting of the correct fraction: round to
the nearest thousandth and print with exactly three decimals.  (The
source formats a binary float; this rational model agrees except on
ties of the underlying float representation.) -/
def format3 (q : ℚ) : String :=
  let m : Int := (q * 1000 + 1 / 2).floor
  let whole := m / 1000
  let frac := (m % 1000).toNat
  toString whole ++ "." ++
    (if frac < 10 then "00" else if frac < 100 then "0" else "") ++ toString frac

/-- Message of the `RuntimeError` raised when the codeword length does
not match the output length. -/
def cwLenMsg : String :=
  "RuntimeError: Codeword length does not match the output length"

/-- Message of the failing `assert len(class_expected) == 1`. -/
def assertOneMsg : String :=
  "AssertionError: The codeword for a class can only have one positive value"

/-- Message of the `RuntimeError` raised when the class query returns
no classes. -/
def noClassesMsg : String := "RuntimeError: No classes found for query"

/-- Message of the `NameError` raised at the final `fh.write` when the
loop body never ran and the name `fraction` is unbound. -/
def unboundFractionMsg : String := "NameError: name fraction is not defined"

/-- Per-sample loop of `TestAnn.export_results` (lines 613-646),
carrying the `correct` and `total` counters: check the codeword length,
decode the target into the expected class (asserting it is unique),
decode the network output, and emit the row
`[label, expected, joined classification, match flag]`. -/
def processSamples (codewords : List (String × List ℚ))
    (run : List ℚ → List ℚ) (error : ℚ) :
    List Sample → Nat → Nat → PyResult (List (List String) × Nat × Nat)
  | [], correct, total => PyResult.ok ([], correct, total)
  | (label, input, output) :: rest, correct, total =>
      if codewords.length = output.length then
        match get_classification codewords output error with
        | PyResult.exn e => PyResult.exn e
        | PyResult.ok class_expected =>
            match class_expected with
            | [e] =>
                match get_classification codewords (run input) error with
                | PyResult.exn e2 => PyResult.exn e2
                | PyResult.ok class_ann =>
                    let isMatch := class_ann.head? = some e
                    let correct2 := if isMatch then correct + 1 else correct
                    let row := [labelField label, e,
                      String.intercalate ", " class_ann,
                      if isMatch then "+" else "-"]
                    match processSamples codewords run error rest correct2
                        (total + 1) with
                    | PyResult.exn e3 => PyResult.exn e3
                    | PyResult.ok (rows, c, t) =>
                        PyResult.ok (row :: rows, c, t)
            | _ => PyResult.exn assertOneMsg
      else PyResult.exn cwLenMsg

/-- Embedding of `TestAnn.export_results(filename, db_path, error)`:
`classes` is the list returned by the class query; the written file is
the header line, one row per test sample, and a final line carrying the
correctly-classified fraction. -/
def export_results (classes : List String) (test_data : List Sample)
    (run : List ℚ → List ℚ) (error : ℚ) : PyResult (List (List String)) :=
  if classes.length = 0 then PyResult.exn noClassesMsg
  else
    let codewords := get_codewords classes (-1) 1
    match processSamples codewords run error test_data 0 0 with
    | PyResult.exn e => PyResult.exn e
    | PyResult.ok (rows, correct, total) =>
        if total = 0 then PyResult.exn unboundFractionMsg
        else
          PyResult.ok (["ID", "Class", "Classification", "Match"] :: rows ++
            [["", "", "", format3 ((correct : ℚ) / (total : ℚ))]])

/-- Specification-side expected class of a sample: the head of the
decoded target codeword (its unique entry when the source assertion
holds). -/
def expectedOf (codewords : List (String × List ℚ)) (error : ℚ)
    (output : List ℚ) : String :=
  (decodeList codewords output error).headD ""

/-- Specification-side ANN classification of a sample. -/
def annsOf (codewords : List (String × List ℚ)) (run : List ℚ → List ℚ)
    (error : ℚ) (input : List ℚ) : List String :=
  decodeList codewords (run input) error

/-- Specification-side match flag of a sample: the classification is
non-empty and its top-ranked class equals the expected class. -/
def matchedB (codewords : List (String × List ℚ)) (run : List ℚ → List ℚ)
    (error : ℚ) (s : Sample) : Bool :=
  (annsOf codewords run error s.2.1).head? = some (expectedOf codewords error s.2.2)

/-- Specification-side row written for a test sample. -/
def rowFor (codewords : List (String × List ℚ)) (run : List ℚ → List ℚ)
    (error : ℚ) (s : Sample) : List String :=
  [labelField s.1, expectedOf codewords error s.2.2,
    String.intercalate ", " (annsOf codewords run error s.2.1),
    if matchedB codewords run error s then "+" else "-"]

/-! ### `MakeTrainData.export` (trainer.py lines 353-430)

`images` is the `(path, class)` list returned by the image query.  The
phenotyper is abstract: `phenotyper path` is `none` when reading or
configuring the image fails (the `except` branch that skips the image)
and `some phenotype` otherwise.  `header_data` is the data-column list
built by `__make_header` from the features configuration; the output
columns are the `prefix1 .. prefixN` names built at lines 484-485.
`nbc.TrainData` is not part of the sources; modelled from the spec
("building fixed-width feature vectors"): it stores each appended
`(label, input, output)` triple unchanged, `finalize` freezes it and
`round_input(6)` rounds every input value to six decimals. -/

/-- Model of rounding one value to six decimals (`round_input(6)`). -/
def round6 (q : ℚ) : ℚ := ((q * 1000000 + 1 / 2).floor : ℚ) / 1000000

/-- Message of the failing `assert len(phenotype) == len(header_data)`. -/
def dataLenMsg : String := "AssertionError: Data length mismatch"

/-- Message of the `KeyError` raised by `codewords[im_class]`. -/
def keyErrMsg : String := "KeyError"

/-- Image-processing loop of `MakeTrainData.export` (lines 392-422):
skip unreadable images, assert the phenotype width, and emit the row
`[im_path] + rounded phenotype + codeword`. -/
def trainRows (codewords : List (String × List ℚ)) (headerLen : Nat)
    (phenotyper : String → Option (List ℚ)) :
    List (String × String) → PyResult (List (List String))
  | [] => PyResult.ok []
  | (path, cls) :: rest =>
      match phenotyper path with
      | none => trainRows codewords headerLen phenotyper rest
      | some phenotype =>
          if phenotype.length = headerLen then
            match dictGet codewords cls with
            | none => PyResult.exn keyErrMsg
            | some cw =>
                match trainRows codewords headerLen phenotyper rest with
                | PyResult.exn e => PyResult.exn e
                | PyResult.ok rows =>
                    PyResult.ok
                      ((path :: (phenotype.map fun q => toString (round6 q)) ++
                        cw.map toString) :: rows)
          else PyResult.exn dataLenMsg

/-- Embedding of `MakeTrainData.export(filename)`: when the image query
returns no rows the function returns early and the output file is never
opened (`PyResult.ok none`); otherwise the written file is the header
line followed by one row per successfully processed image
(`PyResult.ok (some lines)`). -/
def exportTrainData (images : List (String × String))
    (header_data : List String) (outPfx : String)
    (phenotyper : String → Option (List ℚ)) :
    PyResult (Option (List (List String))) :=
  if images.length = 0 then PyResult.ok none
  else
    let classes := (images.map Prod.snd).dedup
    let codewords := get_codewords classes (-1) 1
    let header_out := (List.range classes.length).map
      fun i => outPfx ++ toString (i + 1)
    let header := "ID" :: (header_data ++ header_out)
    match trainRows codewords header_data.length phenotyper images with
    | PyResult.exn e => PyResult.exn e
    | PyResult.ok rows => PyResult.ok (some (header :: rows))

/-! ### Structure of `get_codewords` -/

theorem pyEnum_map_snd {α : Type} : ∀ (l : List α) (n : Nat),
    (pyEnum l n).map Prod.snd = l
  | [], _ => rfl
  | _ :: t, n => by simp [pyEnum, pyEnum_map_snd t (n + 1)]

theorem fst_lt_of_mem_pyEnum {α : Type} : ∀ {l : List α} {n : Nat}
    {p : Nat × α}, p ∈ pyEnum l n → p.1 < n + l.length := by
  intro l
  induction l with
  | nil => intro n p h; cases h
  | cons a t ih =>
      intro n p h
      simp only [pyEnum, List.mem_cons] at h
      rcases h with rfl | h
      · simp only [List.length_cons]
        omega
      · have := ih h
        simp only [List.length_cons]
        omega

theorem dictSet_of_not_mem {α : Type} {k : String} :
    ∀ {d : List (String × α)} (v : α), k ∉ d.map Prod.fst →
      dictSet d k v = d ++ [(k, v)] := by
  intro d
  induction d with
  | nil => intro v _; rfl
  | cons e rest ih =>
      intro v h
      obtain ⟨k', v'⟩ := e
      simp only [List.map_cons, List.mem_cons] at h
      push_neg at h
      simp [dictSet, Ne.symm h.1, ih v h.2]

theorem foldl_dictSet {α : Type} (f : Nat × String → α) :
    ∀ (L : List (Nat × String)) (d : List (String × α)),
      (∀ p ∈ L, p.2 ∉ d.map Prod.fst) → (L.map Prod.snd).Nodup →
      L.foldl (fun d p => dictSet d p.2 (f p)) d =
        d ++ L.map (fun p => (p.2, f p)) := by
  intro L
  induction L with
  | nil => intro d _ _; simp
  | cons p rest ih =>
      intro d hdisj hnd
      simp only [List.foldl_cons]
      rw [dictSet_of_not_mem (f p) (hdisj p (List.mem_cons_self p rest))]
      simp only [List.map_cons, List.nodup_cons] at hnd
      rw [ih (d ++ [(p.2, f p)])]
      · simp
      · intro q hq
        simp only [List.map_append, List.mem_append, List.map_cons]
        push_neg
        constructor
        · exact hdisj q (List.mem_cons_of_mem p hq)
        · have : q.2 ∈ rest.map Prod.snd := List.mem_map_of_mem Prod.snd hq
          intro hmem
          simp only [List.map_nil, List.mem_singleton] at hmem
          exact hnd.1 (hmem ▸ this)
      · exact hnd.2

theorem sortClasses_perm (l : List String) : List.Perm (sortClasses l) l :=
  List.perm_insertionSort _ l

theorem sortClasses_nodup {l : List String} (h : l.Nodup) :
    (sortClasses l).Nodup :=
  ((sortClasses_perm l).nodup_iff).mpr h

theorem sortClasses_length (l : List String) :
    (sortClasses l).length = l.length :=
  (sortClasses_perm l).length_eq

theorem get_codewords_eq {classes : List String} (h : classes.Nodup)
    (neg pos : ℚ) :
    get_codewords classes neg pos =
      (pyEnum (sortClasses classes) 0).map
        (fun p => (p.2, (List.replicate classes.length neg).set p.1 pos)) := by
  unfold get_codewords
  rw [foldl_dictSet]
  · simp
  · intro p _
    simp
  · rw [pyEnum_map_snd]
    exact sortClasses_nodup h

theorem dictGet_pyEnum_map {α : Type} (g : Nat × String → α) :
    ∀ (s : List String) (n : Nat) (c : String), c ∈ s →
      dictGet ((pyEnum s n).map (fun p => (p.2, g p))) c =
        some (g (n + s.indexOf c, c)) := by
  intro s
  induction s with
  | nil => intro n c hc; cases hc
  | cons a t ih =>
      intro n c hc
      by_cases hac : a = c
      · subst hac
        simp [pyEnum, dictGet, List.indexOf_cons_self]
      · have hct : c ∈ t := by
          rcases List.mem_cons.mp hc with h | h
          · exact absurd h.symm hac
          · exact h
        simp only [pyEnum, List.map_cons, dictGet, if_neg hac]
        rw [ih (n + 1) c hct, List.indexOf_cons_ne t hac]
        have h1 : n + 1 + t.indexOf c = n + (t.indexOf c).succ := by omega
        rw [h1]

theorem dictGet_get_codewords {classes : List String} (h : classes.Nodup)
    (neg pos : ℚ) {c : String} (hc : c ∈ classes) :
    dictGet (get_codewords classes neg pos) c =
      some ((List.replicate classes.length neg).set
        ((sortClasses classes).indexOf c) pos) := by
  rw [get_codewords_eq h]
  have hcs : c ∈ sortClasses classes := (sortClasses_perm classes).mem_iff.mpr hc
  rw [dictGet_pyEnum_map _ (sortClasses classes) 0 c hcs]
  simp

theorem get_codewords_length {classes : List String} (h : classes.Nodup)
    (neg pos : ℚ) :
    (get_codewords classes neg pos).length = classes.length := by
  rw [get_codewords_eq h]
  have : ∀ (l : List String) (n : Nat), (pyEnum l n).length = l.length := by
    intro l
    induction l with
    | nil => intro n; rfl
    | cons a t ih => intro n; simp [pyEnum, ih]
  simp [this, sortClasses_length]

theorem get_codewords_keys {classes : List String} (h : classes.Nodup)
    (neg pos : ℚ) :
    (get_codewords classes neg pos).map Prod.fst = sortClasses classes := by
  rw [get_codewords_eq h]
  rw [List.map_map]
  exact pyEnum_map_snd _ 0

theorem get_codewords_values_length {classes : List String} (h : classes.Nodup)
    (neg pos : ℚ) {p : String × List ℚ}
    (hp : p ∈ get_codewords classes neg pos) :
    p.2.length = classes.length := by
  rw [get_codewords_eq h] at hp
  obtain ⟨q, _, hq⟩ := List.mem_map.mp hp
  rw [← hq]
  simp

/-! ### Claims C1 and C9 -/

/-- C1: for every non-empty collection of (distinct) class names,
`Common.get_codewords(classes, neg, pos)` returns a dictionary with
exactly one entry per class (its keys are the class names in sorted
order), and each value is a list of length `len(classes)` whose entry at
the class's index in the sorted order of class names is `pos` while
every other entry is `neg` — a one-hot-style ±1 encoding. -/
theorem get_codewords_one_hot (classes : List String) (neg pos : ℚ)
    (h0 : classes ≠ []) (hnd : classes.Nodup) :
    (get_codewords classes neg pos).length = classes.length ∧
    (get_codewords classes neg pos).map Prod.fst = sortClasses classes ∧
    ∀ c ∈ classes, ∃ cw,
      dictGet (get_codewords classes neg pos) c = some cw ∧
      cw.length = classes.length ∧
      ∀ j (hj : j < cw.length),
        cw[j] = if j = (sortClasses classes).indexOf c then pos else neg := by
  refine ⟨get_codewords_length hnd neg pos, get_codewords_keys hnd neg pos, ?_⟩
  intro c hc
  refine ⟨_, dictGet_get_codewords hnd neg pos hc, by simp, ?_⟩
  intro j hj
  rw [List.getElem_set]
  by_cases hji : (sortClasses classes).indexOf c = j
  · simp [hji]
  · rw [if_neg hji, List.getElem_replicate, if_neg (fun h => hji h.symm)]

theorem get_codewords_one_hot_witness :
    (["b", "a"] : List String) ≠ [] ∧ (["b", "a"] : List String).Nodup ∧
    ((get_codewords ["b", "a"] (-1) 1).length = (["b", "a"] : List String).length ∧
     (get_codewords ["b", "a"] (-1) 1).map Prod.fst = sortClasses ["b", "a"] ∧
     ∀ c ∈ (["b", "a"] : List String), ∃ cw,
       dictGet (get_codewords ["b", "a"] (-1) 1) c = some cw ∧
       cw.length = (["b", "a"] : List String).length ∧
       ∀ j (hj : j < cw.length),
         cw[j] = if j = (sortClasses ["b", "a"]).indexOf c then (1 : ℚ) else -1) :=
  ⟨by decide, by decide,
    get_codewords_one_hot ["b", "a"] (-1) 1 (by decide) (by decide)⟩

/-- C9 counterexample: `["a"]` and `["a", "a"]` contain the same
distinct class names, but `get_codewords` maps `"a"` to `[1]` for the
first and to `[-1, 1]` for the second, so the dictionaries differ. -/
theorem get_codewords_duplicates_counterexample :
    (["a", "a"] : List String).dedup = (["a"] : List String).dedup ∧
    ¬ dictEquiv (get_codewords ["a"] (-1) 1) (get_codewords ["a", "a"] (-1) 1) :=
  ⟨by decide, fun h => absurd (h "a") (by decide)⟩

/-- C9 amended: `Common.get_codewords` is a function of the set of
classes only for duplicate-free collections — for any two duplicate-free
collections containing the same class names in any order it returns
identical dictionaries, because indices are assigned from the sorted
order of the class names. -/
theorem get_codewords_perm_invariant (classes1 classes2 : List String)
    (neg pos : ℚ) (h1 : classes1.Nodup) (h2 : classes2.Nodup)
    (hp : List.Perm classes1 classes2) :
    get_codewords classes1 neg pos = get_codewords classes2 neg pos := by
  have hs1 : List.Sorted strLe (sortClasses classes1) :=
    List.sorted_insertionSort strLe classes1
  have hs2 : List.Sorted strLe (sortClasses classes2) :=
    List.sorted_insertionSort strLe classes2
  have hs : sortClasses classes1 = sortClasses classes2 :=
    List.eq_of_perm_of_sorted
      ((sortClasses_perm classes1).trans
        (hp.trans (sortClasses_perm classes2).symm)) hs1 hs2
  unfold get_codewords
  rw [hs, hp.length_eq]

theorem get_codewords_perm_invariant_witness :
    (["a", "b"] : List String).Nodup ∧ (["b", "a"] : List String).Nodup ∧
    List.Perm ["a", "b"] ["b", "a"] ∧
    get_codewords ["a", "b"] (-1) 1 = get_codewords ["b", "a"] (-1) 1 :=
  ⟨by decide, by decide, by decide,
    get_codewords_perm_invariant ["a", "b"] ["b", "a"] (-1) 1
      (by decide) (by decide) (by decide)⟩

/-! ### Structure of `get_classification` -/

theorem collectClass_ok (cls : String) (codeword : List ℚ) (error : ℚ) :
    ∀ L : List (Nat × ℚ), (∀ p ∈ L, p.1 < codeword.length) →
      collectClass cls codeword error L =
        PyResult.ok
          ((L.filter
              (fun p => decide (p.2 = 1 ∧ (1 - codeword.getD p.1 0) ^ 2 < error))).map
            (fun p => (codeword.getD p.1 0, cls))) := by
  intro L
  induction L with
  | nil => intro _; rfl
  | cons p t ih =>
      intro hb
      obtain ⟨i, code⟩ := p
      have hi : i < codeword.length := hb (i, code) (List.mem_cons_self _ t)
      have hget : codeword[i]? = some codeword[i] := List.getElem?_eq_getElem hi
      have hgetD : codeword.getD i 0 = codeword[i] := by
        rw [List.getD_eq_getElem?_getD, hget]
        rfl
      have ht : ∀ q ∈ t, q.1 < codeword.length :=
        fun q hq => hb q (List.mem_cons_of_mem _ hq)
      by_cases hc : code = 1
      · subst hc
        by_cases hth : (1 - codeword[i]) ^ 2 < error
        · simp [collectClass, hget, ih ht, List.filter_cons, hgetD, hth]
        · simp [collectClass, hget, ih ht, List.filter_cons, hgetD, hth]
      · simp [collectClass, hc, ih ht, List.filter_cons]

theorem collectAll_ok (codeword : List ℚ) (error : ℚ) :
    ∀ codewords : List (String × List ℚ),
      (∀ q ∈ codewords, q.2.length ≤ codeword.length) →
      collectAll codeword error codewords =
        PyResult.ok (qualPairs codeword error codewords) := by
  intro codewords
  induction codewords with
  | nil => intro _; rfl
  | cons q rest ih =>
      intro hb
      obtain ⟨cls, cw⟩ := q
      have hcw : ∀ p ∈ pyEnum cw 0, p.1 < codeword.length := by
        intro p hp
        have h1 := fst_lt_of_mem_pyEnum hp
        have h2 : cw.length ≤ codeword.length :=
          hb (cls, cw) (List.mem_cons_self _ rest)
        omega
      have hrest : ∀ q ∈ rest, q.2.length ≤ codeword.length :=
        fun q hq => hb q (List.mem_cons_of_mem _ hq)
      simp only [collectAll, collectClass_ok cls codeword error _ hcw, ih hrest,
        qualPairs]

theorem get_classification_ok {codewords : List (String × List ℚ)}
    {codeword : List ℚ} (error : ℚ)
    (hlen : codewords.length = codeword.length)
    (hwf : ∀ q ∈ codewords, q.2.length = codeword.length) :
    get_classification codewords codeword error =
      PyResult.ok ((sortPairs (qualPairs codeword error codewords)).map Prod.snd) := by
  unfold get_classification
  rw [if_pos hlen, collectAll_ok codeword error codewords
    (fun q hq => le_of_eq (hwf q hq))]

/-! ### Claims C2 and C10 -/

/-- C2: for every well-formed codewords dictionary and every output
vector of the same length, `Common.get_classification` returns exactly
the class names whose codeword has value 1 at some position `i` with
`(1 - codeword[i])^2 < error` (one occurrence per such position, as
described by `qualPairs`), ordered by descending value of
`codeword[i]`. -/
theorem get_classification_ranked (codewords : List (String × List ℚ))
    (codeword : List ℚ) (error : ℚ)
    (hlen : codewords.length = codeword.length)
    (hwf : ∀ q ∈ codewords, q.2.length = codeword.length) :
    ∃ ps : List (ℚ × String),
      get_classification codewords codeword error =
        PyResult.ok (ps.map Prod.snd) ∧
      List.Sorted (fun a b : ℚ × String => b.1 ≤ a.1) ps ∧
      List.Perm ps (qualPairs codeword error codewords) := by
  refine ⟨sortPairs (qualPairs codeword error codewords),
    get_classification_ok error hlen hwf, ?_, List.perm_insertionSort _ _⟩
  have hs : List.Sorted pairGE (sortPairs (qualPairs codeword error codewords)) :=
    List.sorted_insertionSort pairGE _
  refine hs.imp ?_
  intro a b hab
  rcases hab with h | ⟨h, _⟩
  · exact le_of_lt h
  · exact le_of_eq h.symm

theorem get_classification_ranked_witness :
    ([("a", [1, -1]), ("b", [-1, 1])] : List (String × List ℚ)).length =
      ([1, 0] : List ℚ).length ∧
    (∀ q ∈ ([("a", [1, -1]), ("b", [-1, 1])] : List (String × List ℚ)),
      q.2.length = ([1, 0] : List ℚ).length) ∧
    ∃ ps : List (ℚ × String),
      get_classification [("a", [1, -1]), ("b", [-1, 1])] [1, 0] (1 / 2) =
        PyResult.ok (ps.map Prod.snd) ∧
      List.Sorted (fun a b : ℚ × String => b.1 ≤ a.1) ps ∧
      List.Perm ps (qualPairs [1, 0] (1 / 2) [("a", [1, -1]), ("b", [-1, 1])]) :=
  ⟨by decide, by decide,
    get_classification_ranked [("a", [1, -1]), ("b", [-1, 1])] [1, 0] (1 / 2)
      (by decide) (by decide)⟩

theorem collectClass_exn {cls : String} {codeword : List ℚ} {error : ℚ} :
    ∀ {L : List (Nat × ℚ)} {e : String},
      collectClass cls codeword error L = PyResult.exn e → e = indexErrMsg := by
  intro L
  induction L with
  | nil => intro e h; cases h
  | cons p t ih =>
      intro e h
      obtain ⟨i, code⟩ := p
      simp only [collectClass] at h
      by_cases hc : code = 1
      · rw [if_pos hc] at h
        cases hcw : codeword[i]? with
        | none =>
            simp only [hcw] at h
            cases h
            rfl
        | some v =>
            simp only [hcw] at h
            cases hrec : collectClass cls codeword error t with
            | exn e2 =>
                simp only [hrec] at h
                cases h
                exact ih hrec
            | ok r =>
                simp only [hrec] at h
                by_cases hth : (code - v) ^ 2 < error
                · rw [if_pos hth] at h; cases h
                · rw [if_neg hth] at h; cases h
      · rw [if_neg hc] at h
        exact ih h

theorem collectAll_exn {codeword : List ℚ} {error : ℚ} :
    ∀ {codewords : List (String × List ℚ)} {e : String},
      collectAll codeword error codewords = PyResult.exn e → e = indexErrMsg := by
  intro codewords
  induction codewords with
  | nil => intro e h; cases h
  | cons q rest ih =>
      intro e h
      obtain ⟨cls, cw⟩ := q
      simp only [collectAll] at h
      cases h1 : collectClass cls codeword error (pyEnum cw 0) with
      | exn e1 =>
          simp only [h1] at h
          cases h
          exact collectClass_exn h1
      | ok ps =>
          simp only [h1] at h
          cases h2 : collectAll codeword error rest with
          | exn e2 =>
              simp only [h2] at h
              cases h
              exact ih h2
          | ok qs => simp only [h2] at h; cases h

/-- C10: `Common.get_classification` raises its `ValueError` exactly
when the number of dictionary entries differs from the length of the
output codeword; since the right-hand side does not mention the stored
values, the error is raised before any codeword value is examined, and
when the lengths agree that `ValueError` is never raised. -/
theorem get_classification_valueError (codewords : List (String × List ℚ))
    (codeword : List ℚ) (error : ℚ) :
    get_classification codewords codeword error = PyResult.exn lenMismatchMsg ↔
      codewords.length ≠ codeword.length := by
  constructor
  · intro h hlen
    unfold get_classification at h
    rw [if_pos hlen] at h
    cases hca : collectAll codeword error codewords with
    | exn e =>
        rw [hca] at h
        injection h with he
        have : e = indexErrMsg := collectAll_exn hca
        rw [this] at he
        exact absurd he (by decide)
    | ok ps => rw [hca] at h; cases h
  · intro h
    unfold get_classification
    rw [if_neg h]

/-! ### Claim C3: encode-decode round trip -/

theorem filter_pyEnum_eq_nil {α : Type} (P : Nat × α → Bool) :
    ∀ (l : List α) (m : Nat),
      (∀ k (hk : k < l.length), P (m + k, l[k]) = false) →
      (pyEnum l m).filter P = [] := by
  intro l
  induction l with
  | nil => intro m _; rfl
  | cons a t ih =>
      intro m h
      have h0 : P (m, a) = false := by
        have := h 0 (by simp)
        simpa using this
      have htail : ∀ k (hk : k < t.length), P (m + 1 + k, t[k]) = false := by
        intro k hk
        have h2 := h (k + 1) (by simp only [List.length_cons]; omega)
        rw [List.getElem_cons_succ] at h2
        have e1 : m + (k + 1) = m + 1 + k := by omega
        rw [e1] at h2
        exact h2
      simp only [pyEnum, List.filter_cons, h0]
      simp only [Bool.false_eq_true, if_false]
      exact ih (m + 1) htail

theorem filter_pyEnum_eq_singleton {α : Type} (P : Nat × α → Bool) :
    ∀ (l : List α) (m j : Nat) (hj : j < l.length),
      (∀ k (hk : k < l.length), (P (m + k, l[k]) = true ↔ k = j)) →
      (pyEnum l m).filter P = [(m + j, l[j])] := by
  intro l
  induction l with
  | nil => intro m j hj _; exact absurd hj (Nat.not_lt_zero j)
  | cons a t ih =>
      intro m j hj hP
      cases j with
      | zero =>
          have h0 : P (m, a) = true := by
            have := (hP 0 (by simp)).mpr rfl
            simpa using this
          have htail : ∀ k (hk : k < t.length), P (m + 1 + k, t[k]) = false := by
            intro k hk
            have hiff := hP (k + 1) (by simp only [List.length_cons]; omega)
            rw [List.getElem_cons_succ] at hiff
            have e1 : m + (k + 1) = m + 1 + k := by omega
            rw [e1] at hiff
            cases hb : P (m + 1 + k, t[k]) with
            | false => rfl
            | true => exact absurd (hiff.mp hb) (by omega)
          simp only [pyEnum, List.filter_cons, h0, if_true]
          rw [filter_pyEnum_eq_nil P t (m + 1) htail]
          simp
      | succ j' =>
          have hj' : j' < t.length := by
            simp only [List.length_cons] at hj
            omega
          have h0 : P (m, a) = false := by
            have hiff := hP 0 (by simp)
            simp only [Nat.add_zero, List.getElem_cons_zero] at hiff
            cases hb : P (m, a) with
            | false => rfl
            | true => exact absurd (hiff.mp hb) (by omega)
          have htail : ∀ k (hk : k < t.length),
              (P (m + 1 + k, t[k]) = true ↔ k = j') := by
            intro k hk
            have hiff := hP (k + 1) (by simp only [List.length_cons]; omega)
            rw [List.getElem_cons_succ] at hiff
            have e1 : m + (k + 1) = m + 1 + k := by omega
            rw [e1] at hiff
            constructor
            · intro ht
              have := hiff.mp ht
              omega
            · intro hkj
              exact hiff.mpr (by omega)
          simp only [pyEnum, List.filter_cons, h0]
          simp only [Bool.false_eq_true, if_false]
          rw [ih (m + 1) j' hj' htail]
          have e1 : m + 1 + j' = m + (j' + 1) := by omega
          rw [List.getElem_cons_succ, e1]

theorem getElem_replicate_set (n : Nat) (neg pos : ℚ) (j k : Nat)
    (hk : k < ((List.replicate n neg).set j pos).length) :
    ((List.replicate n neg).set j pos)[k] = if j = k then pos else neg := by
  rw [List.getElem_set]
  by_cases h : j = k
  · simp [h]
  · simp [h]

theorem getD_replicate_set (n : Nat) (neg pos : ℚ) (j k : Nat) (hk : k < n) :
    ((List.replicate n neg).set j pos).getD k 0 = if j = k then pos else neg := by
  have hk2 : k < ((List.replicate n neg).set j pos).length := by simp [hk]
  rw [List.getD_eq_getElem?_getD, List.getElem?_eq_getElem hk2]
  exact getElem_replicate_set n neg pos j k hk2

theorem qual_contrib_onehot (n idx j : Nat) (cls : String) (error : ℚ)
    (hj : j < n) (hidx : idx < n) (h0 : 0 < error) (h4 : error ≤ 4) :
    ((pyEnum ((List.replicate n (-1:ℚ)).set j 1) 0).filter
        (fun p => decide (p.2 = 1 ∧
          (1 - ((List.replicate n (-1:ℚ)).set idx 1).getD p.1 0) ^ 2 < error))).map
      (fun p => (((List.replicate n (-1:ℚ)).set idx 1).getD p.1 0, cls)) =
      if j = idx then [((1:ℚ), cls)] else [] := by
  by_cases hji : j = idx
  · subst hji
    rw [filter_pyEnum_eq_singleton _ _ 0 j (by simp [hj]) ?hiff]
    · simp only [List.map_cons, List.map_nil, Nat.zero_add]
      rw [getD_replicate_set n (-1) 1 j j hj]
      simp
    case hiff =>
      intro k hk
      have hkn : k < n := by simpa using hk
      have hval := getElem_replicate_set n (-1) 1 j k hk
      have hgd := getD_replicate_set n (-1) 1 j k hkn
      by_cases hkj : k = j
      · subst hkj
        simp only [eq_self_iff_true, if_true] at hval hgd
        simp only [Nat.zero_add, hval, hgd, decide_eq_true_eq]
        constructor
        · intro _
          trivial
        · intro _
          refine ⟨by trivial, ?_⟩
          have he : ((1:ℚ) - 1) ^ 2 = 0 := by norm_num
          rw [he]
          exact h0
      · have hne : j ≠ k := fun h => hkj h.symm
        simp only [if_neg hne] at hval hgd
        simp only [Nat.zero_add, hval, hgd, decide_eq_true_eq]
        constructor
        · intro h
          exact absurd h.1 (by norm_num)
        · intro h
          exact absurd h hkj
  · rw [filter_pyEnum_eq_nil _ _ 0 ?hnone]
    · simp [hji]
    case hnone =>
      intro k hk
      have hkn : k < n := by simpa using hk
      have hval := getElem_replicate_set n (-1) 1 j k hk
      have hgd := getD_replicate_set n (-1) 1 idx k hkn
      by_cases hkj : k = j
      · subst hkj
        simp only [eq_self_iff_true, if_true] at hval
        have hne2 : idx ≠ k := fun h => hji h.symm
        simp only [if_neg hne2] at hgd
        simp only [Nat.zero_add, hval, hgd, decide_eq_false_iff_not]
        intro hcontra
        have h41 : ((1:ℚ) - -1) ^ 2 = 4 := by norm_num
        rw [h41] at hcontra
        exact absurd (lt_of_le_of_lt h4 hcontra.2) (lt_irrefl _)
      · have hne : j ≠ k := fun h => hkj h.symm
        simp only [if_neg hne] at hval
        simp only [Nat.zero_add, hval, decide_eq_false_iff_not]
        intro hcontra
        exact absurd hcontra.1 (by norm_num)

theorem qualPairs_onehot (n idx : Nat) (error : ℚ) (hidx : idx < n)
    (h0 : 0 < error) (h4 : error ≤ 4) :
    ∀ L : List (Nat × String), (∀ p ∈ L, p.1 < n) →
      qualPairs ((List.replicate n (-1:ℚ)).set idx 1) error
          (L.map fun p => (p.2, (List.replicate n (-1:ℚ)).set p.1 1)) =
        (L.filter fun p => decide (p.1 = idx)).map fun p => ((1:ℚ), p.2) := by
  intro L
  induction L with
  | nil => intro _; rfl
  | cons p rest ih =>
      intro hb
      obtain ⟨i, cls⟩ := p
      have hi : i < n := hb (i, cls) (List.mem_cons_self _ _)
      simp only [List.map_cons, qualPairs]
      rw [qual_contrib_onehot n idx i cls error hi hidx h0 h4]
      rw [ih (fun q hq => hb q (List.mem_cons_of_mem _ hq))]
      simp only [List.filter_cons]
      by_cases hik : i = idx
      · simp [hik]
      · simp [hik]

/-- C3: encode-decode round trip: for every non-empty set of classes,
every class `c` in it, and every error bound with `0 < error ≤ 4`,
decoding the class's own codeword returns exactly `[c]`: the matching
position contributes `(1-1)^2 = 0 < error` and every other class's
position contributes `(1-(-1))^2 = 4 ≥ error`. -/
theorem codeword_roundtrip (classes : List String) (c : String) (error : ℚ)
    (h0 : classes ≠ []) (hnd : classes.Nodup) (hc : c ∈ classes)
    (he1 : 0 < error) (he2 : error ≤ 4) :
    ∃ cw, dictGet (get_codewords classes (-1) 1) c = some cw ∧
      get_classification (get_codewords classes (-1) 1) cw error =
        PyResult.ok [c] := by
  have hcs : c ∈ sortClasses classes := (sortClasses_perm classes).mem_iff.mpr hc
  have hidxs : (sortClasses classes).indexOf c < (sortClasses classes).length :=
    List.indexOf_lt_length.mpr hcs
  have hidx : (sortClasses classes).indexOf c < classes.length := by
    rwa [sortClasses_length] at hidxs
  refine ⟨_, dictGet_get_codewords hnd (-1) 1 hc, ?_⟩
  have hlen : (get_codewords classes (-1) 1).length =
      ((List.replicate classes.length (-1:ℚ)).set
        ((sortClasses classes).indexOf c) 1).length := by
    rw [get_codewords_length hnd]
    simp
  have hwf : ∀ q ∈ get_codewords classes (-1) 1, q.2.length =
      ((List.replicate classes.length (-1:ℚ)).set
        ((sortClasses classes).indexOf c) 1).length := by
    intro q hq
    rw [get_codewords_values_length hnd (-1) 1 hq]
    simp
  rw [get_classification_ok error hlen hwf]
  have hqp : qualPairs
      ((List.replicate classes.length (-1:ℚ)).set ((sortClasses classes).indexOf c) 1)
      error (get_codewords classes (-1) 1) = [((1:ℚ), c)] := by
    rw [get_codewords_eq hnd]
    rw [qualPairs_onehot classes.length ((sortClasses classes).indexOf c) error hidx
      he1 he2 (pyEnum (sortClasses classes) 0) ?bound]
    · have hfil := filter_pyEnum_eq_singleton
        (fun p => decide (p.1 = (sortClasses classes).indexOf c))
        (sortClasses classes) 0 ((sortClasses classes).indexOf c) hidxs ?hiff
      · rw [hfil]
        simp only [List.map_cons, List.map_nil]
        rw [List.getElem_indexOf hidxs]
      case hiff =>
        intro k hk
        simp only [decide_eq_true_eq]
        omega
    case bound =>
      intro p hp
      have h1 := fst_lt_of_mem_pyEnum hp
      have h2 : (sortClasses classes).length = classes.length :=
        sortClasses_length classes
      omega
  rw [hqp]
  rfl

theorem codeword_roundtrip_witness :
    (["a", "b"] : List String) ≠ [] ∧ (["a", "b"] : List String).Nodup ∧
    "a" ∈ (["a", "b"] : List String) ∧ (0 : ℚ) < 1 ∧ (1 : ℚ) ≤ 4 ∧
    ∃ cw, dictGet (get_codewords ["a", "b"] (-1) 1) "a" = some cw ∧
      get_classification (get_codewords ["a", "b"] (-1) 1) cw 1 =
        PyResult.ok ["a"] :=
  ⟨by decide, by decide, by decide, by decide, by decide,
    codeword_roundtrip ["a", "b"] "a" 1 (by decide) (by decide) (by decide)
      (by decide) (by decide)⟩

/-! ### Claim C4: exception handling in `main` -/

/-- C4 counterexample: the claim that every subcommand logs and then
propagates exceptions fails at the `ann` subcommand, whose
`try/except` block (trainer.py lines 147-152) logs the error but has no
`raise`, so nothing propagates out of `main`; `test-ann` also disproves
the logging half, having no handler at all. -/
theorem main_exception_handling_counterexample :
    ¬ (∀ (t : TrainerTask) (e : String),
        (mainRun t (PyResult.exn e)).logged = [e] ∧
        (mainRun t (PyResult.exn e)).raised = some e) := by
  intro h
  exact absurd ((h TrainerTask.ann "boom").2) (by decide)

/-- C4 amended: exceptions raised during a task are handled per branch:
for `data` the exception is logged and then propagated; for `ann` it is
logged and then suppressed (main falls through to `sys.exit()`); for
`test-ann` and `classify` it propagates out of `main` without being
logged. -/
theorem main_exception_handling (e : String) :
    ((mainRun TrainerTask.data (PyResult.exn e)).logged = [e] ∧
      (mainRun TrainerTask.data (PyResult.exn e)).raised = some e) ∧
    ((mainRun TrainerTask.ann (PyResult.exn e)).logged = [e] ∧
      (mainRun TrainerTask.ann (PyResult.exn e)).raised = none) ∧
    ((mainRun TrainerTask.testAnn (PyResult.exn e)).logged = [] ∧
      (mainRun TrainerTask.testAnn (PyResult.exn e)).raised = some e) ∧
    ((mainRun TrainerTask.classify (PyResult.exn e)).logged = [] ∧
      (mainRun TrainerTask.classify (PyResult.exn e)).raised = some e) :=
  ⟨⟨rfl, rfl⟩, ⟨rfl, rfl⟩, ⟨rfl, rfl⟩, ⟨rfl, rfl⟩⟩

/-! ### Claim C5: `ImageClassifier.classify` -/

/-- C5: `ImageClassifier.classify(image_path, error)` returns exactly
`get_classification(get_codewords(self.classes), ann.run(phenotype),
error)` where `phenotype` is the feature vector extracted from the
image and `self.classes` is the class list from the taxonomic-class
query (here a parameter, as is the network and the feature
extractor). -/
theorem classify_decodes_network_output (classes : List String)
    (run : List ℚ → List ℚ) (makePhenotype : String → List ℚ)
    (image_path : String) (error : ℚ) :
    ImageClassifier.classify classes run makePhenotype image_path error =
      get_classification (get_codewords classes (-1) 1)
        (run (makePhenotype image_path)) error := rfl

/-! ### Claims C7 and C8: `MakeTrainData.export` -/

/-- C8: when the image query returns an empty list, `export` returns
early (trainer.py lines 367-369) without opening the output file, so an
existing file at that path is left unchanged, despite the `--output`
help text promising that an existing file is always overwritten. -/
theorem export_empty_images_no_write (header_data : List String)
    (outPfx : String) (phenotyper : String → Option (List ℚ)) :
    exportTrainData [] header_data outPfx phenotyper = PyResult.ok none := rfl

theorem trainRows_widths (codewords : List (String × List ℚ)) (hd : Nat)
    (nclasses : Nat) (phenotyper : String → Option (List ℚ)) :
    ∀ images : List (String × String),
      (∀ pc ∈ images, ∃ cw, dictGet codewords pc.2 = some cw ∧
        cw.length = nclasses) →
      (∀ path p, phenotyper path = some p → p.length = hd) →
      ∃ rows, trainRows codewords hd phenotyper images = PyResult.ok rows ∧
        ∀ row ∈ rows, row.length = 1 + hd + nclasses := by
  intro images
  induction images with
  | nil => intro _ _; exact ⟨[], rfl, by simp⟩
  | cons pc rest ih =>
      intro hcw hph
      obtain ⟨path, cls⟩ := pc
      obtain ⟨rows, hrows, hwid⟩ :=
        ih (fun q hq => hcw q (List.mem_cons_of_mem _ hq)) hph
      cases hp : phenotyper path with
      | none => exact ⟨rows, by simp [trainRows, hp, hrows], hwid⟩
      | some phenotype =>
          obtain ⟨cw, hget, hcwlen⟩ := hcw (path, cls) (List.mem_cons_self _ _)
          have hplen : phenotype.length = hd := hph path phenotype hp
          refine ⟨(path :: (phenotype.map fun q => toString (round6 q)) ++
            cw.map toString) :: rows, ?_, ?_⟩
          · simp [trainRows, hp, hplen, hget, hrows]
          · intro row hrow
            rcases List.mem_cons.mp hrow with rfl | hrow2
            · simp only [List.length_cons, List.length_append, List.length_map,
                hplen, hcwlen]
              omega
            · exact hwid row hrow2

/-- C7: under the precondition that every successfully processed image
yields a phenotype whose length equals the number of header data
columns, `MakeTrainData.export` completes without an assertion failure
and every line of the written file — the header and each data row —
has exactly `1 + len(header_data) + len(classes)` tab-separated
fields. -/
theorem export_fixed_width (images : List (String × String))
    (header_data : List String) (outPfx : String)
    (phenotyper : String → Option (List ℚ))
    (hpre : ∀ path p, phenotyper path = some p →
      p.length = header_data.length) :
    ∃ r, exportTrainData images header_data outPfx phenotyper =
        PyResult.ok r ∧
      ∀ lines, r = some lines → ∀ row ∈ lines,
        row.length = 1 + header_data.length +
          ((images.map Prod.snd).dedup).length := by
  by_cases himg : images.length = 0
  · refine ⟨none, ?_, ?_⟩
    · simp [exportTrainData, himg]
    · intro lines hl
      cases hl
  · have hnd : ((images.map Prod.snd).dedup).Nodup := List.nodup_dedup _
    have hcw : ∀ pc ∈ images, ∃ cw,
        dictGet (get_codewords ((images.map Prod.snd).dedup) (-1) 1) pc.2 =
          some cw ∧ cw.length = ((images.map Prod.snd).dedup).length := by
      intro pc hpc
      have hmem : pc.2 ∈ (images.map Prod.snd).dedup :=
        List.mem_dedup.mpr (List.mem_map_of_mem Prod.snd hpc)
      exact ⟨_, dictGet_get_codewords hnd (-1) 1 hmem, by simp⟩
    obtain ⟨rows, hrows, hwid⟩ := trainRows_widths
      (get_codewords ((images.map Prod.snd).dedup) (-1) 1)
      header_data.length ((images.map Prod.snd).dedup).length
      phenotyper images hcw hpre
    refine ⟨some (("ID" :: (header_data ++
      (List.range ((images.map Prod.snd).dedup).length).map
        (fun i => outPfx ++ toString (i + 1)))) :: rows), ?_, ?_⟩
    · simp [exportTrainData, himg, hrows]
    · intro lines hl
      injection hl with hl
      subst hl
      intro row hrow
      rcases List.mem_cons.mp hrow with rfl | hrow2
      · simp only [List.length_cons, List.length_append, List.length_map,
          List.length_range]
        omega
      · exact hwid row hrow2

theorem export_fixed_width_witness :
    (∀ path p, (fun (_ : String) => some [(0:ℚ)]) path = some p →
      p.length = (["f1"] : List String).length) ∧
    ∃ r, exportTrainData [("p", "a")] ["f1"] "N"
        (fun _ => some [(0:ℚ)]) = PyResult.ok r ∧
      ∀ lines, r = some lines → ∀ row ∈ lines,
        row.length = 1 + (["f1"] : List String).length +
          (((([("p", "a")] : List (String × String))).map Prod.snd).dedup).length :=
  ⟨fun _ p h => by injection h with h2; subst h2; decide,
    export_fixed_width [("p", "a")] ["f1"] "N" (fun _ => some [(0:ℚ)])
      (fun _ p h => by injection h with h2; subst h2; decide)⟩

/-! ### Claim C6: `TestAnn.export_results` -/

theorem processSamples_eq (cws : List (String × List ℚ))
    (run : List ℚ → List ℚ) (error : ℚ) :
    ∀ (l : List Sample) (c t : Nat),
      (∀ s ∈ l, cws.length = s.2.2.length) →
      (∀ s ∈ l, ∃ e, get_classification cws s.2.2 error = PyResult.ok [e]) →
      (∀ s ∈ l, ∃ anns,
        get_classification cws (run s.2.1) error = PyResult.ok anns) →
      processSamples cws run error l c t =
        PyResult.ok (l.map (rowFor cws run error),
          c + l.countP (matchedB cws run error), t + l.length) := by
  intro l
  induction l with
  | nil => intro c t _ _ _; simp [processSamples]
  | cons s rest ih =>
      intro c t hlen hone hanns
      obtain ⟨label, input, output⟩ := s
      have hl : cws.length = output.length := hlen _ (List.mem_cons_self _ _)
      obtain ⟨e, he⟩ := hone _ (List.mem_cons_self _ _)
      obtain ⟨anns, ha⟩ := hanns _ (List.mem_cons_self _ _)
      have hrest := ih ((if anns.head? = some e then c + 1 else c)) (t + 1)
        (fun q hq => hlen q (List.mem_cons_of_mem _ hq))
        (fun q hq => hone q (List.mem_cons_of_mem _ hq))
        (fun q hq => hanns q (List.mem_cons_of_mem _ hq))
      have hexp : expectedOf cws error output = e := by
        simp [expectedOf, decodeList, he]
      have hann2 : annsOf cws run error (label, input, output).2.1 = anns := by
        simp [annsOf, decodeList, ha]
      simp only [processSamples, if_pos hl, he, ha, hrest]
      by_cases hm : anns.head? = some e
      · simp only [if_pos hm]
        have hmB : matchedB cws run error (label, input, output) = true := by
          simp [matchedB, hann2, hexp, hm]
        have hrow : rowFor cws run error (label, input, output) =
            [labelField label, e, String.intercalate ", " anns, "+"] := by
          simp [rowFor, hexp, hann2, hmB, labelField]
        simp only [PyResult.ok.injEq, Prod.mk.injEq, List.map_cons,
          List.countP_cons, hmB, List.length_cons, if_true, hrow]
        refine ⟨by trivial, ?_, ?_⟩ <;> omega
      · simp only [if_neg hm]
        have hmB : matchedB cws run error (label, input, output) = false := by
          simp [matchedB, hann2, hexp, hm]
        have hrow : rowFor cws run error (label, input, output) =
            [labelField label, e, String.intercalate ", " anns, "-"] := by
          simp [rowFor, hexp, hann2, hmB, labelField]
        simp only [PyResult.ok.injEq, Prod.mk.injEq, List.map_cons,
          List.countP_cons, hmB, List.length_cons, Bool.false_eq_true, if_false,
          hrow]
        refine ⟨by trivial, ?_, ?_⟩ <;> omega

/-- C6: `TestAnn.export_results` writes a tab-separated file: the first
line is the header `ID/Class/Classification/Match`; each test sample
yields one row whose `Match` column is "+" exactly when the network's
classification list is non-empty and its first (top-ranked) class
equals the expected class decoded from the sample's target codeword,
and "-" otherwise; the final line carries the fraction correct/total of
matched samples formatted to three decimals. -/
theorem export_results_table (classes : List String) (test_data : List Sample)
    (run : List ℚ → List ℚ) (error : ℚ)
    (hcls : classes ≠ []) (hnd : classes.Nodup) (htd : test_data ≠ [])
    (hout : ∀ s ∈ test_data, s.2.2.length = classes.length)
    (hrun : ∀ s ∈ test_data, (run s.2.1).length = classes.length)
    (hone : ∀ s ∈ test_data,
      (decodeList (get_codewords classes (-1) 1) s.2.2 error).length = 1) :
    export_results classes test_data run error =
      PyResult.ok (["ID", "Class", "Classification", "Match"] ::
        test_data.map (rowFor (get_codewords classes (-1) 1) run error) ++
        [["", "", "",
          format3
            ((test_data.countP (matchedB (get_codewords classes (-1) 1) run error) : ℚ) /
              (test_data.length : ℚ))]]) := by
  have hlen0 : ¬ classes.length = 0 := by
    intro h
    exact hcls (List.length_eq_zero.mp h)
  have hcwlen : (get_codewords classes (-1) 1).length = classes.length :=
    get_codewords_length hnd (-1) 1
  have hlen : ∀ s ∈ test_data,
      (get_codewords classes (-1) 1).length = s.2.2.length := by
    intro s hs
    rw [hcwlen, hout s hs]
  have hok_out : ∀ s ∈ test_data, ∃ l,
      get_classification (get_codewords classes (-1) 1) s.2.2 error =
        PyResult.ok l := by
    intro s hs
    refine ⟨_, get_classification_ok error (hlen s hs) ?_⟩
    intro q hq
    rw [get_codewords_values_length hnd (-1) 1 hq, hout s hs]
  have hone2 : ∀ s ∈ test_data, ∃ e,
      get_classification (get_codewords classes (-1) 1) s.2.2 error =
        PyResult.ok [e] := by
    intro s hs
    obtain ⟨l, hl⟩ := hok_out s hs
    have hd : decodeList (get_codewords classes (-1) 1) s.2.2 error = l := by
      simp [decodeList, hl]
    have hlen1 := hone s hs
    rw [hd] at hlen1
    cases l with
    | nil => simp at hlen1
    | cons e l2 =>
        cases l2 with
        | nil => exact ⟨e, hl⟩
        | cons f l3 => simp at hlen1
  have hanns : ∀ s ∈ test_data, ∃ anns,
      get_classification (get_codewords classes (-1) 1) (run s.2.1) error =
        PyResult.ok anns := by
    intro s hs
    refine ⟨_, get_classification_ok error ?_ ?_⟩
    · rw [hcwlen, hrun s hs]
    · intro q hq
      rw [get_codewords_values_length hnd (-1) 1 hq, hrun s hs]
  have htd0 : ¬ (0 + test_data.length = 0) := by
    intro h
    exact htd (List.length_eq_zero.mp (by omega))
  simp only [export_results, if_neg hlen0,
    processSamples_eq (get_codewords classes (-1) 1) run error test_data 0 0
      hlen hone2 hanns, if_neg htd0]
  simp

theorem export_results_table_witness :
    (["a", "b"] : List String) ≠ [] ∧ (["a", "b"] : List String).Nodup ∧
    ([((some "x" : Option String), ([5] : List ℚ), ([1, -1] : List ℚ))] :
      List Sample) ≠ [] ∧
    (∀ s ∈ ([(some "x", [5], [1, -1])] : List Sample),
      s.2.2.length = (["a", "b"] : List String).length) ∧
    (∀ s ∈ ([(some "x", [5], [1, -1])] : List Sample),
      ((fun (_ : List ℚ) => ([1, -1] : List ℚ)) s.2.1).length =
        (["a", "b"] : List String).length) ∧
    (∀ s ∈ ([(some "x", [5], [1, -1])] : List Sample),
      (decodeList (get_codewords ["a", "b"] (-1) 1) s.2.2 1).length = 1) ∧
    export_results ["a", "b"] [(some "x", [5], [1, -1])]
        (fun _ => [1, -1]) 1 =
      PyResult.ok (["ID", "Class", "Classification", "Match"] ::
        ([(some "x", [5], [1, -1])] : List Sample).map
          (rowFor (get_codewords ["a", "b"] (-1) 1) (fun _ => [1, -1]) 1) ++
        [["", "", "",
          format3
            ((([(some "x", [5], [1, -1])] : List Sample).countP
                (matchedB (get_codewords ["a", "b"] (-1) 1)
                  (fun _ => [1, -1]) 1) : ℚ) /
              (([(some "x", [5], [1, -1])] : List Sample).length : ℚ))]]) :=
  ⟨by decide, by decide, by decide, by decide, by decide, by decide,
    export_results_table ["a", "b"] [(some "x", [5], [1, -1])]
      (fun _ => [1, -1]) 1 (by decide) (by decide) (by decide) (by decide)
      (by decide) (by decide)⟩
